import Mathlib

/-!
Verification development for the upwork-automation repository.

The repository ships the browser-automation orchestration layer (Session Pool
Manager + Workflow Orchestration Engine) as documented design material, a web
dashboard written in React/TypeScript, and a relational schema.  This file
gives a shallow embedding of:

* the Workflow Orchestration Engine (dependency-aware step scheduler,
  retry accounting, session acquire/release balance, checkpoint recovery),
  modelled from the specification since the engine's executable source is not
  part of the repository snapshot (only `src/browser-automation/README.md`,
  `src/browser-automation/README_DIRECTOR.md` and `src/database/init.sql`
  document it);
* the Session Pool acquire path and the session lifecycle, likewise modelled
  from the specification;
* the web dashboard's `App` job-list timer (`src/web/src/App.tsx`) and the
  `JobDetailPage` route-parameter lookup (`src/web/src/pages/JobDetail.tsx`),
  translated directly from the TypeScript source.
-/

namespace UpworkAutomation

/-! ## Workflow engine: data model

Modelled from the spec: `Step` (§3) with dependency list (each dependency
optionally marked as satisfied-by-Skipped), per-step max-retries, priority,
resource requirement, and the run-on-upstream-failure marker of scheduling
rule 5; `Workflow Definition` (§3) with its step list and
max-concurrent-steps; per-step execution record (§3) with status in
{Pending, Running, Succeeded, Failed, Skipped} and attempt count. -/

inductive StepStatus
  | pending
  | running
  | succeeded
  | failed
  | skipped
deriving DecidableEq, Repr

structure WStep where
  /-- dependencies: step index paired with "this dependency is explicitly
  marked optional" (a Skipped dependency satisfies the dependent only when
  this flag is set). -/
  deps : List (Nat × Bool)
  maxRetries : Nat
  priority : Nat
  needsSession : Bool
  runOnUpstreamFailure : Bool
deriving DecidableEq, Repr

def defaultWStep : WStep :=
  { deps := [], maxRetries := 0, priority := 0, needsSession := false,
    runOnUpstreamFailure := false }

structure WorkflowDef where
  steps : List WStep
  maxConcurrentSteps : Nat
deriving DecidableEq, Repr

def WorkflowDef.numSteps (wf : WorkflowDef) : Nat := wf.steps.length

def WorkflowDef.step (wf : WorkflowDef) (i : Nat) : WStep :=
  wf.steps.getD i defaultWStep

structure StepRecord where
  status : StepStatus
  attempts : Nat
deriving DecidableEq, Repr

def initRecord : StepRecord := { status := .pending, attempts := 0 }

/-! ## Scheduler, records level

Modelled from the spec: scheduling algorithm of §4.2.  A table of step
records is a function from step index to record (indices beyond the
definition stay at `initRecord` and are never admitted). -/

/-- A dependency is satisfied when the dependency step is Succeeded, or
Skipped with the dependency explicitly marked optional (spec §4.2 rule 1). -/
def depOk (recs : Nat → StepRecord) (d : Nat × Bool) : Bool :=
  match (recs d.1).status with
  | .succeeded => true
  | .skipped => d.2
  | _ => false

/-- A dependency blocks its dependent when the dependency step is Failed, or
Skipped without the optional marking (spec §3 invariant and §4.2 rule 5). -/
def depBlocked (recs : Nat → StepRecord) (d : Nat × Bool) : Bool :=
  match (recs d.1).status with
  | .failed => true
  | .skipped => !d.2
  | _ => false

/-- Ready set membership: Pending with every dependency satisfied. -/
def isReady (wf : WorkflowDef) (recs : Nat → StepRecord) (i : Nat) : Bool :=
  (recs i).status == .pending && (wf.step i).deps.all (depOk recs)

def runningCount (wf : WorkflowDef) (recs : Nat → StepRecord) : Nat :=
  ((Finset.range wf.numSteps).filter (fun i => (recs i).status = .running)).card

/-- Number of Running steps currently holding a pooled session. -/
def heldCount (wf : WorkflowDef) (recs : Nat → StepRecord) : Nat :=
  ((Finset.range wf.numSteps).filter
    (fun i => (recs i).status = .running ∧ (wf.step i).needsSession = true)).card

/-- Admission order: by declared priority (higher first), then by definition
order (lower index first) as the tie-break (spec §4.2 rule 2). -/
def admOrder (wf : WorkflowDef) (i j : Nat) : Prop :=
  (wf.step j).priority < (wf.step i).priority ∨
    ((wf.step i).priority = (wf.step j).priority ∧ i ≤ j)

instance (wf : WorkflowDef) : DecidableRel (admOrder wf) := fun _ _ => by
  unfold admOrder; infer_instance

instance (wf : WorkflowDef) : IsTotal Nat (admOrder wf) where
  total i j := by
    unfold admOrder
    rcases Nat.lt_trichotomy (wf.step i).priority (wf.step j).priority with h | h | h
    · exact Or.inr (Or.inl h)
    · rcases Nat.le_total i j with h' | h'
      · exact Or.inl (Or.inr ⟨h, h'⟩)
      · exact Or.inr (Or.inr ⟨h.symm, h'⟩)
    · exact Or.inl (Or.inl h)

instance (wf : WorkflowDef) : IsTrans Nat (admOrder wf) where
  trans i j k hij hjk := by
    unfold admOrder at *
    rcases hij with h1 | ⟨h1, h1'⟩ <;> rcases hjk with h2 | ⟨h2, h2'⟩
    · exact Or.inl (h2.trans h1)
    · exact Or.inl (h2 ▸ h1)
    · exact Or.inl (h1 ▸ h2)
    · exact Or.inr ⟨h1.trans h2, h1'.trans h2'⟩

/-- The ready set, sorted by priority then definition order. -/
def readySorted (wf : WorkflowDef) (recs : Nat → StepRecord) : List Nat :=
  List.insertionSort (admOrder wf) ((List.range wf.numSteps).filter (isReady wf recs))

/-- Steps admitted in one scheduling pass: ready steps in admission order,
up to `max-concurrent-steps − currently-running-count` (spec §4.2 rule 2). -/
def admittedList (wf : WorkflowDef) (recs : Nat → StepRecord) : List Nat :=
  (readySorted wf recs).take (wf.maxConcurrentSteps - runningCount wf recs)

/-- Admission: every admitted step moves Pending → Running. -/
def admitRecords (wf : WorkflowDef) (recs : Nat → StepRecord) : Nat → StepRecord :=
  fun i => if i ∈ admittedList wf recs then { recs i with status := .running } else recs i

/-- Outcome of one finished attempt (spec §4.2 rule 5 and §8): the attempt
count is incremented; on failure the step re-queues as Pending while the
count of previously finished attempts is below max-retries, and otherwise is
marked Failed — so permanent failure lands exactly on attempt `R + 1`. -/
def resolveStep (wf : WorkflowDef) (oracle : Nat → Nat → Bool) (i : Nat)
    (r : StepRecord) : StepRecord :=
  if oracle i r.attempts then { status := .succeeded, attempts := r.attempts + 1 }
  else if r.attempts < (wf.step i).maxRetries then
    { status := .pending, attempts := r.attempts + 1 }
  else { status := .failed, attempts := r.attempts + 1 }

/-- Completion: every Running step finishes its in-flight attempt, with the
success/failure outcome supplied by the action oracle. -/
def completeRecords (wf : WorkflowDef) (oracle : Nat → Nat → Bool)
    (recs : Nat → StepRecord) : Nat → StepRecord :=
  fun i => if (recs i).status = .running then resolveStep wf oracle i (recs i) else recs i

/-- Skip propagation (spec §4.2 rule 5): a Pending step one of whose
dependencies is Failed or non-optionally Skipped is marked Skipped, unless
the step is explicitly marked to run on upstream failure. -/
def skipRecords (wf : WorkflowDef) (recs : Nat → StepRecord) : Nat → StepRecord :=
  fun i =>
    if (recs i).status == .pending && (wf.step i).deps.any (depBlocked recs)
        && !(wf.step i).runOnUpstreamFailure
    then { recs i with status := .skipped } else recs i

/-- Recovery of a checkpointed record table (spec §4.2 Recovery): a step
recorded Running at crash time becomes Pending with its attempt count
preserved; every other record is kept as checkpointed. -/
def recoverRecords (recs : Nat → StepRecord) : Nat → StepRecord :=
  fun i => if (recs i).status = .running then { recs i with status := .pending } else recs i

/-- One synchronous scheduler tick: admit, complete, propagate skips. -/
def tickRecords (wf : WorkflowDef) (oracle : Nat → Nat → Bool)
    (recs : Nat → StepRecord) : Nat → StepRecord :=
  skipRecords wf (completeRecords wf oracle (admitRecords wf recs))

/-- The uninterrupted run: `k` scheduler ticks from the initial table. -/
def runTicks (wf : WorkflowDef) (oracle : Nat → Nat → Bool) : Nat → (Nat → StepRecord)
  | 0 => fun _ => initRecord
  | k + 1 => tickRecords wf oracle (runTicks wf oracle k)

/-- Resumption: `f` further scheduler ticks from a given record table. -/
def runFrom (wf : WorkflowDef) (oracle : Nat → Nat → Bool)
    (recs : Nat → StepRecord) : Nat → (Nat → StepRecord)
  | 0 => recs
  | f + 1 => tickRecords wf oracle (runFrom wf oracle recs f)

/-! ## Scheduler, execution-state level

Modelled from the spec: the Orchestrator's per-execution state, extended with
cumulative session acquire/release counters (spec §4.2 rules 3–4: a step
requiring a resource acquires a session at admission and the session is
released when the attempt finishes, on success, error, or cancellation). -/

structure ExecState where
  records : Nat → StepRecord
  acquired : Nat
  released : Nat
  cancelled : Bool

def initState : ExecState :=
  { records := fun _ => initRecord, acquired := 0, released := 0, cancelled := false }

/-- Admission phase: admitted steps start Running; each admitted step that
requires a resource acquires one session from the Pool. -/
def admitPhase (wf : WorkflowDef) (s : ExecState) : ExecState :=
  { records := admitRecords wf s.records
    acquired := s.acquired +
      ((admittedList wf s.records).filter (fun i => (wf.step i).needsSession)).length
    released := s.released
    cancelled := s.cancelled }

/-- Completion phase: every in-flight attempt finishes and every session held
by a Running step is released back to the Pool (success or error outcome). -/
def completePhase (wf : WorkflowDef) (oracle : Nat → Nat → Bool) (s : ExecState) : ExecState :=
  { records := completeRecords wf oracle s.records
    acquired := s.acquired
    released := s.released + heldCount wf s.records
    cancelled := s.cancelled }

/-- Skip-propagation phase. -/
def skipPhase (wf : WorkflowDef) (s : ExecState) : ExecState :=
  { s with records := skipRecords wf s.records }

/-- Cancellation (spec §4.2 rule 6): in-flight steps are interrupted and
their sessions force-released; all Pending steps are marked Skipped. -/
def cancelRecords (recs : Nat → StepRecord) : Nat → StepRecord :=
  fun i =>
    match (recs i).status with
    | .running => { recs i with status := .skipped }
    | .pending => { recs i with status := .skipped }
    | _ => recs i

def cancelExec (wf : WorkflowDef) (s : ExecState) : ExecState :=
  { records := cancelRecords s.records
    acquired := s.acquired
    released := s.released + heldCount wf s.records
    cancelled := true }

/-- Restart from the persisted checkpoint (the step-status table): a new
Orchestrator process with fresh session accounting. -/
def recoverState (s : ExecState) : ExecState :=
  { records := recoverRecords s.records, acquired := 0, released := 0,
    cancelled := s.cancelled }

/-- The states of one execution reachable by the scheduler loop, including
the mid-tick states between admission and completion, cancellation, and
checkpoint recovery. -/
inductive Reachable (wf : WorkflowDef) (oracle : Nat → Nat → Bool) : ExecState → Prop
  | init : Reachable wf oracle initState
  | admitStep {s : ExecState} : Reachable wf oracle s → Reachable wf oracle (admitPhase wf s)
  | complete {s : ExecState} : Reachable wf oracle s →
      Reachable wf oracle (completePhase wf oracle s)
  | skip {s : ExecState} : Reachable wf oracle s → Reachable wf oracle (skipPhase wf s)
  | cancel {s : ExecState} : Reachable wf oracle s → Reachable wf oracle (cancelExec wf s)
  | recover {s : ExecState} : Reachable wf oracle s → Reachable wf oracle (recoverState s)

/-- Derived execution status (spec §4.2 rule 6). -/
inductive ExecStatus
  | running
  | completed
  | failed
  | cancelled
deriving DecidableEq, Repr

def execStatus (wf : WorkflowDef) (s : ExecState) : ExecStatus :=
  if s.cancelled then .cancelled
  else if (List.range wf.numSteps).any (fun i => (s.records i).status == .failed) then .failed
  else if (List.range wf.numSteps).all
      (fun i => (s.records i).status == .succeeded || (s.records i).status == .skipped) then
    .completed
  else .running

/-! ## Session Pool acquire path

Modelled from the spec: `acquire(poolKey, timeout)` (§4.1) for one pool key.
The pool state counts Idle and Active sessions against the pool-size cap
(`BrowserAutomationConfig.SESSION_POOL_SIZE` in
`src/browser-automation/README.md`).  Blocking is modelled by discrete time:
one boolean per elapsed time unit says whether a `release` arrived during
that unit. -/

structure PoolState where
  idle : Nat
  active : Nat
  cap : Nat
deriving DecidableEq, Repr

def PoolState.total (p : PoolState) : Nat := p.idle + p.active

inductive AcquireOutcome
  | ok (p : PoolState)
  | acquireTimeout (p : PoolState)
deriving DecidableEq, Repr

def AcquireOutcome.state : AcquireOutcome → PoolState
  | .ok p => p
  | .acquireTimeout p => p

/-- Immediate acquisition: hand out an Idle session, or create a new one
only while strictly below the pool-size cap; otherwise the caller waits. -/
def tryAcquireNow (p : PoolState) : Option PoolState :=
  if 0 < p.idle then some { p with idle := p.idle - 1, active := p.active + 1 }
  else if p.total < p.cap then some { p with active := p.active + 1 }
  else none

/-- A `release` arriving while the caller waits moves one session
Active → Idle. -/
def applyRelease (p : PoolState) (e : Bool) : PoolState :=
  if e then
    if 0 < p.active then { p with idle := p.idle + 1, active := p.active - 1 } else p
  else p

/-- `acquire` with a timeout measured in waiting units: the caller blocks
until an Idle session exists or can be created below the cap, or until the
timeout elapses, in which case it receives `AcquireTimeout`. -/
def poolAcquire : Nat → PoolState → List Bool → AcquireOutcome
  | 0, p, _ =>
    match tryAcquireNow p with
    | some p' => .ok p'
    | none => .acquireTimeout p
  | t + 1, p, events =>
    match tryAcquireNow p with
    | some p' => .ok p'
    | none =>
      match events with
      | [] => .acquireTimeout p
      | e :: rest => poolAcquire t (applyRelease p e) rest

/-! ## Session lifecycle

Modelled from the spec: the seven-valued session status
(`SessionStatus` in `src/browser-automation/README.md`), the lifecycle
transitions of §3/§4.1, and replacement with context copy. -/

inductive SessionStatus
  | creating
  | active
  | idle
  | unhealthy
  | expired
  | closed
  | error
deriving DecidableEq, Repr

def SessionStatus.all : List SessionStatus :=
  [.creating, .active, .idle, .unhealthy, .expired, .closed, .error]

/-- Allowed lifecycle transitions: creation completes or errors; acquire and
release move between Idle and Active; health probes and error thresholds mark
Unhealthy; TTL marks Expired; reclamation or explicit close reaches Closed;
and Closed is terminal — a closed session is never resurrected. -/
def sessionStepAllowed : SessionStatus → SessionStatus → Bool
  | .closed, _ => false
  | _, .closed => true
  | .creating, .idle => true
  | .creating, .active => true
  | .creating, .error => true
  | .idle, .active => true
  | .active, .idle => true
  | .idle, .unhealthy => true
  | .active, .unhealthy => true
  | .idle, .expired => true
  | .active, .expired => true
  | _, _ => false

structure Session where
  sid : Nat
  poolKey : String
  status : SessionStatus
  errorCount : Nat
  context : List (String × String)
deriving DecidableEq, Repr

/-- Replacement of an Unhealthy/Expired session: a fresh session is created
for the same pool key carrying a copy of the old session's context, and the
old session is closed. -/
def replaceSession (old : Session) (newId : Nat) : Session × Session :=
  ( { sid := newId, poolKey := old.poolKey, status := .creating, errorCount := 0,
      context := old.context }
  , { old with status := .closed } )

/-! ## Web dashboard: `App` job-list timer

Translated from `src/web/src/App.tsx`: the initial five jobs and the
5-second interval callback
`setJobs(prev => [...prev, { id: prev.length + 1, title: ..., status: 'Pending', ... }])`.
The `created_at` wall-clock timestamp is not modelled. -/

structure Job where
  id : Nat
  title : String
  status : String
deriving DecidableEq, Repr

def initialJobs : List Job :=
  [ { id := 1, title := "Senior Frontend Developer", status := "Applied" }
  , { id := 2, title := "Full Stack Engineer", status := "Pending" }
  , { id := 3, title := "Backend Developer", status := "Applied" }
  , { id := 4, title := "DevOps Engineer", status := "Rejected" }
  , { id := 5, title := "UI/UX Designer", status := "Pending" } ]

/-- The job appended by one timer tick, given the previous list. -/
def newJob (prev : List Job) : Job :=
  { id := prev.length + 1, title := "New Job " ++ toString (prev.length + 1),
    status := "Pending" }

/-- One firing of the interval callback. -/
def tickJobs (prev : List Job) : List Job := prev ++ [newJob prev]

/-- The jobs list after `n` timer ticks. -/
def jobsAfter : Nat → List Job
  | 0 => initialJobs
  | n + 1 => tickJobs (jobsAfter n)

/-! ## Web dashboard: `JobDetailPage` lookup

Translated from `src/web/src/pages/JobDetail.tsx`: the three hard-coded mock
jobs, the `parseInt(id || '', 10)` conversion of the route parameter with
JavaScript semantics (leading whitespace skipped, optional sign, longest
digit prefix, NaN when no digit is found — NaN modelled as `none`), the
`mockJobs.find(j => j.id === jobId)` lookup, and the `Job not found`
fallback rendered while no job is selected. -/

structure MockJob where
  id : Int
  title : String
  status : String
  description : String
  proposal : String
deriving DecidableEq, Repr

def mockJobs : List MockJob :=
  [ { id := 1, title := "Senior Frontend Developer", status := "Applied",
      description := "Looking for a skilled frontend developer to join our team.",
      proposal := "I am a great fit for this role because..." }
  , { id := 2, title := "Full Stack Engineer", status := "Pending",
      description := "We need a full stack engineer with experience in React and Node.js.",
      proposal := "" }
  , { id := 3, title := "Backend Developer", status := "Applied",
      description := "Join our backend team and work with cutting-edge technologies.",
      proposal := "My skills in backend development make me an ideal candidate." } ]

def digitsToNat (ds : List Char) : Nat :=
  ds.foldl (fun a c => a * 10 + (c.toNat - 48)) 0

/-- JavaScript `parseInt(s, 10)`: skip leading whitespace, read an optional
sign, then the longest prefix of decimal digits; `NaN` (here `none`) when
that prefix is empty. -/
def parseIntJS (s : String) : Option Int :=
  let cs := s.data.dropWhile (fun c => c.isWhitespace)
  let signed : Int × List Char :=
    match cs with
    | '-' :: rest => (-1, rest)
    | '+' :: rest => (1, rest)
    | _ => (1, cs)
  let ds := signed.2.takeWhile (fun c => c.isDigit)
  if ds.isEmpty then none else some (signed.1 * (digitsToNat ds : Int))

/-- `useParams` may yield no `id`; the component evaluates `id || ''`. -/
def routeIdString (p : Option String) : String := p.getD ""

/-- The `find` over the mock jobs; `none` models the `jobId` being NaN,
which `===`-matches no job id. -/
def jobLookup (p : Option String) : Option MockJob :=
  match parseIntJS (routeIdString p) with
  | none => none
  | some v => mockJobs.find? (fun j => j.id == v)

inductive JobDetailView
  | notFound
  | details (j : MockJob)
deriving DecidableEq, Repr

/-- What the component renders: job details when the lookup succeeded, and
the fallback otherwise. -/
def renderJobDetail (p : Option String) : JobDetailView :=
  match jobLookup p with
  | none => .notFound
  | some j => .details j

def viewText : JobDetailView → String
  | .notFound => "Job not found"
  | .details j => j.title

/-! ## Invariant predicates -/

/-- Invariant: every Running step has every dependency Succeeded or
optional-Skipped. -/
def runningDepsOk (wf : WorkflowDef) (recs : Nat → StepRecord) : Prop :=
  ∀ i, (recs i).status = .running → ∀ d ∈ (wf.step i).deps, depOk recs d = true

/-- Invariant tying each status to its attempt count: a non-terminal record
has at most max-retries finished attempts, a Failed record exactly
max-retries + 1, and a Succeeded record at most max-retries + 1. -/
def attemptsInv (wf : WorkflowDef) (recs : Nat → StepRecord) : Prop :=
  ∀ i,
    ((recs i).status = .failed → (recs i).attempts = (wf.step i).maxRetries + 1) ∧
    ((recs i).status = .pending ∨ (recs i).status = .running ∨ (recs i).status = .skipped →
      (recs i).attempts ≤ (wf.step i).maxRetries) ∧
    ((recs i).status = .succeeded → (recs i).attempts ≤ (wf.step i).maxRetries + 1)

def noRunning (recs : Nat → StepRecord) : Prop :=
  ∀ i, (recs i).status ≠ .running

/-! ## Concrete fixtures

`wf8`/`oracle8` realise the spec §8 scenario for failure propagation: step 0
is an independent sibling that succeeds, step 1 always fails and has
max-retries = 2, step 2 depends on step 1, step 3 transitively depends on
step 2, and step 4 depends on step 1 but is marked to run on upstream
failure.  `wfW`/`oracleW` and `wfF`/`oracleF` are small fixtures used to
exhibit reachable states. -/

def wf8 : WorkflowDef :=
  { steps :=
      [ { deps := [], maxRetries := 0, priority := 0, needsSession := true,
          runOnUpstreamFailure := false }
      , { deps := [], maxRetries := 2, priority := 0, needsSession := true,
          runOnUpstreamFailure := false }
      , { deps := [(1, false)], maxRetries := 0, priority := 0, needsSession := false,
          runOnUpstreamFailure := false }
      , { deps := [(2, false)], maxRetries := 0, priority := 0, needsSession := false,
          runOnUpstreamFailure := false }
      , { deps := [(1, false)], maxRetries := 0, priority := 0, needsSession := false,
          runOnUpstreamFailure := true } ]
    maxConcurrentSteps := 5 }

def oracle8 : Nat → Nat → Bool := fun i _ => i == 0

def wfW : WorkflowDef :=
  { steps :=
      [ { deps := [], maxRetries := 0, priority := 0, needsSession := true,
          runOnUpstreamFailure := false }
      , { deps := [(0, false)], maxRetries := 0, priority := 0, needsSession := true,
          runOnUpstreamFailure := false } ]
    maxConcurrentSteps := 2 }

def oracleW : Nat → Nat → Bool := fun _ _ => true

/-- One full scheduler tick of `wfW` from the initial state: step 0 has run
and Succeeded, its session released. -/
def sQ : ExecState := skipPhase wfW (completePhase wfW oracleW (admitPhase wfW initState))

/-- Mid-tick state of `wfW`: step 1 has just been admitted (Running). -/
def sW : ExecState := admitPhase wfW sQ

def wfF : WorkflowDef :=
  { steps :=
      [ { deps := [], maxRetries := 1, priority := 0, needsSession := false,
          runOnUpstreamFailure := false } ]
    maxConcurrentSteps := 1 }

def oracleF : Nat → Nat → Bool := fun _ _ => false

/-- Two full scheduler ticks of `wfF`: its only step has failed twice and
exhausted max-retries = 1. -/
def sF : ExecState :=
  skipPhase wfF (completePhase wfF oracleF (admitPhase wfF
    (skipPhase wfF (completePhase wfF oracleF (admitPhase wfF initState)))))

/-! ## Scheduler lemmas: admission -/

lemma mem_readySorted_iff {wf : WorkflowDef} {recs : Nat → StepRecord} {i : Nat} :
    i ∈ readySorted wf recs ↔ i ∈ (List.range wf.numSteps).filter (isReady wf recs) := by
  unfold readySorted
  exact (List.perm_insertionSort (admOrder wf) _).mem_iff

lemma admitted_ready {wf : WorkflowDef} {recs : Nat → StepRecord} {i : Nat}
    (h : i ∈ admittedList wf recs) : isReady wf recs i = true := by
  have h' := mem_readySorted_iff.mp (List.mem_of_mem_take h)
  exact (List.mem_filter.mp h').2

lemma admitted_lt {wf : WorkflowDef} {recs : Nat → StepRecord} {i : Nat}
    (h : i ∈ admittedList wf recs) : i < wf.numSteps := by
  have h' := mem_readySorted_iff.mp (List.mem_of_mem_take h)
  exact List.mem_range.mp (List.mem_filter.mp h').1

lemma ready_pending {wf : WorkflowDef} {recs : Nat → StepRecord} {i : Nat}
    (h : isReady wf recs i = true) : (recs i).status = .pending := by
  unfold isReady at h
  have := (Bool.and_eq_true _ _).mp h
  exact eq_of_beq this.1

lemma ready_deps {wf : WorkflowDef} {recs : Nat → StepRecord} {i : Nat}
    (h : isReady wf recs i = true) :
    ∀ d ∈ (wf.step i).deps, depOk recs d = true := by
  unfold isReady at h
  have := (Bool.and_eq_true _ _).mp h
  exact fun d hd => List.all_eq_true.mp this.2 d hd

lemma admitted_pending {wf : WorkflowDef} {recs : Nat → StepRecord} {i : Nat}
    (h : i ∈ admittedList wf recs) : (recs i).status = .pending :=
  ready_pending (admitted_ready h)

lemma admitted_nodup (wf : WorkflowDef) (recs : Nat → StepRecord) :
    (admittedList wf recs).Nodup := by
  have h1 : ((List.range wf.numSteps).filter (isReady wf recs)).Nodup :=
    (List.nodup_range _).filter _
  have h2 : (readySorted wf recs).Nodup :=
    (List.perm_insertionSort (admOrder wf) _).symm.nodup h1
  exact h2.sublist (List.take_sublist _ _)

lemma admittedList_length_le (wf : WorkflowDef) (recs : Nat → StepRecord) :
    (admittedList wf recs).length ≤ wf.maxConcurrentSteps - runningCount wf recs :=
  List.length_take_le _ _

/-! ## Scheduler lemmas: which records each phase can touch -/

lemma admitRecords_eq_of_not_pending {wf : WorkflowDef} {recs : Nat → StepRecord} {i : Nat}
    (h : (recs i).status ≠ .pending) : admitRecords wf recs i = recs i := by
  unfold admitRecords
  by_cases hm : i ∈ admittedList wf recs
  · exact absurd (admitted_pending hm) h
  · simp [hm]

lemma completeRecords_eq_of_not_running {wf : WorkflowDef} {oracle : Nat → Nat → Bool}
    {recs : Nat → StepRecord} {i : Nat} (h : (recs i).status ≠ .running) :
    completeRecords wf oracle recs i = recs i := by
  unfold completeRecords
  simp [h]

lemma skipRecords_eq_of_not_pending {wf : WorkflowDef} {recs : Nat → StepRecord} {i : Nat}
    (h : (recs i).status ≠ .pending) : skipRecords wf recs i = recs i := by
  unfold skipRecords
  have : ((recs i).status == StepStatus.pending) = false := beq_eq_false_iff_ne.mpr h
  simp [this]

lemma cancelRecords_eq_of_settled {recs : Nat → StepRecord} {i : Nat}
    (hp : (recs i).status ≠ .pending) (hr : (recs i).status ≠ .running) :
    cancelRecords recs i = recs i := by
  unfold cancelRecords
  cases h : (recs i).status <;> simp_all

lemma recoverRecords_eq_of_not_running {recs : Nat → StepRecord} {i : Nat}
    (h : (recs i).status ≠ .running) : recoverRecords recs i = recs i := by
  unfold recoverRecords
  simp [h]

/-- Settled statuses (Succeeded, Failed, optional-Skipped) are frozen: no
phase rewrites a record that is neither Pending nor Running. -/
lemma depOk_settled {recs : Nat → StepRecord} {d : Nat × Bool}
    (h : depOk recs d = true) :
    (recs d.1).status ≠ .pending ∧ (recs d.1).status ≠ .running := by
  unfold depOk at h
  cases hs : (recs d.1).status <;> simp [hs] at h <;> simp [hs]

lemma depOk_preserved {recs recs' : Nat → StepRecord} {d : Nat × Bool}
    (hsame : ∀ j, (recs j).status ≠ .pending → (recs j).status ≠ .running →
      recs' j = recs j)
    (h : depOk recs d = true) : depOk recs' d = true := by
  have hd := depOk_settled h
  have : recs' d.1 = recs d.1 := hsame d.1 hd.1 hd.2
  unfold depOk at *
  rw [this]
  exact h

lemma resolveStep_status_ne_running (wf : WorkflowDef) (oracle : Nat → Nat → Bool)
    (i : Nat) (r : StepRecord) : (resolveStep wf oracle i r).status ≠ .running := by
  unfold resolveStep
  split <;> [skip; split] <;> simp

/-! ## C1: dependency order is respected at every reachable state -/

lemma admit_settled (wf : WorkflowDef) (recs : Nat → StepRecord) :
    ∀ j, (recs j).status ≠ .pending → (recs j).status ≠ .running →
      admitRecords wf recs j = recs j :=
  fun _ hp _ => admitRecords_eq_of_not_pending hp

lemma complete_settled (wf : WorkflowDef) (oracle : Nat → Nat → Bool)
    (recs : Nat → StepRecord) :
    ∀ j, (recs j).status ≠ .pending → (recs j).status ≠ .running →
      completeRecords wf oracle recs j = recs j :=
  fun _ _ hr => completeRecords_eq_of_not_running hr

lemma skip_settled (wf : WorkflowDef) (recs : Nat → StepRecord) :
    ∀ j, (recs j).status ≠ .pending → (recs j).status ≠ .running →
      skipRecords wf recs j = recs j :=
  fun _ hp _ => skipRecords_eq_of_not_pending hp

lemma runningDepsOk_admitStep {wf : WorkflowDef} {recs : Nat → StepRecord}
    (h : runningDepsOk wf recs) : runningDepsOk wf (admitRecords wf recs) := by
  intro i hi d hd
  by_cases hm : i ∈ admittedList wf recs
  · exact depOk_preserved (admit_settled wf recs) (ready_deps (admitted_ready hm) d hd)
  · have he : admitRecords wf recs i = recs i := by unfold admitRecords; simp [hm]
    rw [he] at hi
    exact depOk_preserved (admit_settled wf recs) (h i hi d hd)

lemma runningDepsOk_complete {wf : WorkflowDef} {oracle : Nat → Nat → Bool}
    {recs : Nat → StepRecord} :
    runningDepsOk wf (completeRecords wf oracle recs) := by
  intro i hi
  unfold completeRecords at hi
  by_cases hr : (recs i).status = .running
  · rw [if_pos hr] at hi
    exact absurd hi (resolveStep_status_ne_running wf oracle i (recs i))
  · rw [if_neg hr] at hi
    exact absurd hi hr

lemma skipRecords_running_iff {wf : WorkflowDef} {recs : Nat → StepRecord} {i : Nat} :
    (skipRecords wf recs i).status = .running ↔ (recs i).status = .running := by
  unfold skipRecords
  split <;> simp_all

lemma runningDepsOk_skip {wf : WorkflowDef} {recs : Nat → StepRecord}
    (h : runningDepsOk wf recs) : runningDepsOk wf (skipRecords wf recs) := by
  intro i hi d hd
  exact depOk_preserved (skip_settled wf recs)
    (h i (skipRecords_running_iff.mp hi) d hd)

lemma cancelRecords_not_running (recs : Nat → StepRecord) (i : Nat) :
    (cancelRecords recs i).status ≠ .running := by
  unfold cancelRecords
  cases h : (recs i).status <;> simp [h]

lemma recoverRecords_not_running (recs : Nat → StepRecord) (i : Nat) :
    (recoverRecords recs i).status ≠ .running := by
  unfold recoverRecords
  by_cases h : (recs i).status = .running <;> simp [h]

lemma runningDepsOk_reachable {wf : WorkflowDef} {oracle : Nat → Nat → Bool}
    {s : ExecState} (h : Reachable wf oracle s) : runningDepsOk wf s.records := by
  induction h with
  | init => intro i hi; exact absurd hi (by simp [initState, initRecord])
  | admitStep _ ih => exact runningDepsOk_admitStep ih
  | complete _ _ => exact runningDepsOk_complete
  | skip _ ih => exact runningDepsOk_skip ih
  | cancel _ _ => intro i hi; exact absurd hi (cancelRecords_not_running _ i)
  | recover _ _ => intro i hi; exact absurd hi (recoverRecords_not_running _ i)

/-! ## C3/C4: counting Running steps and held sessions -/

lemma admitRecords_running_iff {wf : WorkflowDef} {recs : Nat → StepRecord} {i : Nat} :
    (admitRecords wf recs i).status = .running ↔
      i ∈ admittedList wf recs ∨ (recs i).status = .running := by
  unfold admitRecords
  by_cases hm : i ∈ admittedList wf recs <;> simp [hm]

lemma completeRecords_not_running (wf : WorkflowDef) (oracle : Nat → Nat → Bool)
    (recs : Nat → StepRecord) (i : Nat) :
    (completeRecords wf oracle recs i).status ≠ .running := by
  unfold completeRecords
  by_cases hr : (recs i).status = .running
  · rw [if_pos hr]; exact resolveStep_status_ne_running wf oracle i (recs i)
  · rw [if_neg hr]; exact hr

lemma runningCount_eq_zero_of_none {wf : WorkflowDef} {recs : Nat → StepRecord}
    (h : ∀ i, (recs i).status ≠ .running) : runningCount wf recs = 0 := by
  unfold runningCount
  rw [Finset.filter_eq_empty_iff.mpr (fun i _ => h i)]
  rfl

lemma heldCount_eq_zero_of_none {wf : WorkflowDef} {recs : Nat → StepRecord}
    (h : ∀ i, (recs i).status ≠ .running) : heldCount wf recs = 0 := by
  unfold heldCount
  rw [Finset.filter_eq_empty_iff.mpr (fun i _ hi => h i hi.1)]
  rfl

lemma runningCount_skip (wf : WorkflowDef) (recs : Nat → StepRecord) :
    runningCount wf (skipRecords wf recs) = runningCount wf recs := by
  unfold runningCount
  congr 1
  exact Finset.filter_congr (fun i _ => skipRecords_running_iff)

lemma heldCount_skip (wf : WorkflowDef) (recs : Nat → StepRecord) :
    heldCount wf (skipRecords wf recs) = heldCount wf recs := by
  unfold heldCount
  congr 1
  exact Finset.filter_congr (fun i _ => and_congr_left (fun _ => skipRecords_running_iff))

lemma runningCount_admit_le (wf : WorkflowDef) (recs : Nat → StepRecord) :
    runningCount wf (admitRecords wf recs) ≤
      (admittedList wf recs).length + runningCount wf recs := by
  unfold runningCount
  have hsub : (Finset.range wf.numSteps).filter
      (fun i => (admitRecords wf recs i).status = .running) ⊆
      (admittedList wf recs).toFinset ∪
        (Finset.range wf.numSteps).filter (fun i => (recs i).status = .running) := by
    intro i hi
    have hi' := Finset.mem_filter.mp hi
    rcases admitRecords_running_iff.mp hi'.2 with hm | hr
    · exact Finset.mem_union_left _ (List.mem_toFinset.mpr hm)
    · exact Finset.mem_union_right _ (Finset.mem_filter.mpr ⟨hi'.1, hr⟩)
  calc ((Finset.range wf.numSteps).filter
      (fun i => (admitRecords wf recs i).status = .running)).card
      ≤ ((admittedList wf recs).toFinset ∪
          (Finset.range wf.numSteps).filter (fun i => (recs i).status = .running)).card :=
        Finset.card_le_card hsub
    _ ≤ (admittedList wf recs).toFinset.card +
          ((Finset.range wf.numSteps).filter (fun i => (recs i).status = .running)).card :=
        Finset.card_union_le _ _
    _ ≤ (admittedList wf recs).length + runningCount wf recs :=
        Nat.add_le_add_right (List.toFinset_card_le _) _

lemma heldCount_admitStep (wf : WorkflowDef) (recs : Nat → StepRecord) :
    heldCount wf (admitRecords wf recs) =
      ((admittedList wf recs).filter (fun i => (wf.step i).needsSession)).length +
        heldCount wf recs := by
  unfold heldCount
  have hsplit : (Finset.range wf.numSteps).filter
      (fun i => (admitRecords wf recs i).status = .running ∧ (wf.step i).needsSession = true) =
      ((admittedList wf recs).filter (fun i => (wf.step i).needsSession)).toFinset ∪
        (Finset.range wf.numSteps).filter
          (fun i => (recs i).status = .running ∧ (wf.step i).needsSession = true) := by
    ext i
    simp only [Finset.mem_filter, Finset.mem_union, List.mem_toFinset, List.mem_filter,
      Finset.mem_range, admitRecords_running_iff]
    constructor
    · rintro ⟨hlt, hm | hr, hn⟩
      · exact Or.inl ⟨hm, hn⟩
      · exact Or.inr ⟨hlt, hr, hn⟩
    · rintro (⟨hm, hn⟩ | ⟨hlt, hr, hn⟩)
      · exact ⟨admitted_lt hm, Or.inl hm, hn⟩
      · exact ⟨hlt, Or.inr hr, hn⟩
  rw [hsplit]
  rw [Finset.card_union_of_disjoint, List.toFinset_card_of_nodup]
  · exact (admitted_nodup wf recs).filter _
  · rw [Finset.disjoint_left]
    intro i hi hi'
    have hm := List.mem_filter.mp (List.mem_toFinset.mp hi)
    have hp := admitted_pending hm.1
    have hr := (Finset.mem_filter.mp hi').2.1
    rw [hp] at hr
    exact absurd hr (by simp)

lemma admitRecords_attempts (wf : WorkflowDef) (recs : Nat → StepRecord) (i : Nat) :
    (admitRecords wf recs i).attempts = (recs i).attempts := by
  unfold admitRecords
  by_cases hm : i ∈ admittedList wf recs <;> simp [hm]

/-- C3 invariant: the number of Running steps never exceeds
max-concurrent-steps. -/
lemma runningCount_reachable {wf : WorkflowDef} {oracle : Nat → Nat → Bool}
    {s : ExecState} (h : Reachable wf oracle s) :
    runningCount wf s.records ≤ wf.maxConcurrentSteps := by
  induction h with
  | init =>
    have hz : runningCount wf initState.records = 0 :=
      runningCount_eq_zero_of_none (fun i => by simp [initState, initRecord])
    omega
  | @admitStep t _ ih =>
    have h1 := runningCount_admit_le wf t.records
    have h2 := admittedList_length_le wf t.records
    show runningCount wf (admitRecords wf t.records) ≤ _
    omega
  | @complete t _ _ =>
    have hz : runningCount wf (completeRecords wf oracle t.records) = 0 :=
      runningCount_eq_zero_of_none (completeRecords_not_running wf oracle t.records)
    show runningCount wf (completeRecords wf oracle t.records) ≤ _
    omega
  | @skip t _ ih =>
    show runningCount wf (skipRecords wf t.records) ≤ _
    rw [runningCount_skip]
    exact ih
  | @cancel t _ _ =>
    have hz : runningCount wf (cancelRecords t.records) = 0 :=
      runningCount_eq_zero_of_none (cancelRecords_not_running t.records)
    show runningCount wf (cancelRecords t.records) ≤ _
    omega
  | @recover t _ _ =>
    have hz : runningCount wf (recoverRecords t.records) = 0 :=
      runningCount_eq_zero_of_none (recoverRecords_not_running t.records)
    show runningCount wf (recoverRecords t.records) ≤ _
    omega

/-- C4 invariant: cumulative acquisitions equal cumulative releases plus the
sessions currently held by Running steps. -/
lemma sessionBalance_reachable {wf : WorkflowDef} {oracle : Nat → Nat → Bool}
    {s : ExecState} (h : Reachable wf oracle s) :
    s.acquired = s.released + heldCount wf s.records := by
  induction h with
  | init =>
    have hz : heldCount wf initState.records = 0 :=
      heldCount_eq_zero_of_none (fun i => by simp [initState, initRecord])
    show (0 : Nat) = 0 + heldCount wf initState.records
    omega
  | @admitStep t _ ih =>
    have he := heldCount_admitStep wf t.records
    show t.acquired +
        ((admittedList wf t.records).filter (fun i => (wf.step i).needsSession)).length =
      t.released + heldCount wf (admitRecords wf t.records)
    omega
  | @complete t _ ih =>
    have hz : heldCount wf (completeRecords wf oracle t.records) = 0 :=
      heldCount_eq_zero_of_none (completeRecords_not_running wf oracle t.records)
    show t.acquired = t.released + heldCount wf t.records +
      heldCount wf (completeRecords wf oracle t.records)
    omega
  | @skip t _ ih =>
    show t.acquired = t.released + heldCount wf (skipRecords wf t.records)
    rw [heldCount_skip]
    exact ih
  | @cancel t _ ih =>
    have hz : heldCount wf (cancelRecords t.records) = 0 :=
      heldCount_eq_zero_of_none (cancelRecords_not_running t.records)
    show t.acquired = t.released + heldCount wf t.records +
      heldCount wf (cancelRecords t.records)
    omega
  | @recover t _ _ =>
    have hz : heldCount wf (recoverRecords t.records) = 0 :=
      heldCount_eq_zero_of_none (recoverRecords_not_running t.records)
    show (0 : Nat) = 0 + heldCount wf (recoverRecords t.records)
    omega

/-! ## C2: retry accounting -/

lemma attemptsInv_admitStep {wf : WorkflowDef} {recs : Nat → StepRecord}
    (h : attemptsInv wf recs) : attemptsInv wf (admitRecords wf recs) := by
  intro i
  unfold admitRecords
  by_cases hm : i ∈ admittedList wf recs
  · have hp := admitted_pending hm
    have := (h i).2.1 (Or.inl hp)
    simp [hm, this]
  · simp only [hm, if_neg, ite_false]
    exact h i

lemma attemptsInv_complete {wf : WorkflowDef} {oracle : Nat → Nat → Bool}
    {recs : Nat → StepRecord} (h : attemptsInv wf recs) :
    attemptsInv wf (completeRecords wf oracle recs) := by
  intro i
  unfold completeRecords
  by_cases hr : (recs i).status = .running
  · rw [if_pos hr]
    have ha : (recs i).attempts ≤ (wf.step i).maxRetries := (h i).2.1 (Or.inr (Or.inl hr))
    unfold resolveStep
    by_cases ho : oracle i (recs i).attempts = true
    · simp [ho]; omega
    · rw [if_neg (by simp [ho])]
      by_cases hlt : (recs i).attempts < (wf.step i).maxRetries
      · simp [hlt]; omega
      · simp [hlt]; omega
  · rw [if_neg hr]
    exact h i

lemma attemptsInv_skip {wf : WorkflowDef} {recs : Nat → StepRecord}
    (h : attemptsInv wf recs) : attemptsInv wf (skipRecords wf recs) := by
  intro i
  unfold skipRecords
  by_cases hc : ((recs i).status == StepStatus.pending
      && (wf.step i).deps.any (depBlocked recs)
      && !(wf.step i).runOnUpstreamFailure) = true
  · rw [if_pos hc]
    have hp : (recs i).status = .pending :=
      eq_of_beq ((Bool.and_eq_true _ _).mp ((Bool.and_eq_true _ _).mp hc).1).1
    have := (h i).2.1 (Or.inl hp)
    simp [this]
  · rw [if_neg hc]
    exact h i

lemma attemptsInv_cancel {wf : WorkflowDef} {recs : Nat → StepRecord}
    (h : attemptsInv wf recs) : attemptsInv wf (cancelRecords recs) := by
  intro i
  unfold cancelRecords
  cases hs : (recs i).status
  case pending =>
    have := (h i).2.1 (Or.inl hs)
    simp [hs, this]
  case running =>
    have := (h i).2.1 (Or.inr (Or.inl hs))
    simp [hs, this]
  case succeeded =>
    have := (h i).2.2 hs
    simp [hs, this]
  case failed =>
    have := (h i).1 hs
    simp [hs, this]
  case skipped =>
    have := (h i).2.1 (Or.inr (Or.inr hs))
    simp [hs, this]

lemma attemptsInv_recover {wf : WorkflowDef} {recs : Nat → StepRecord}
    (h : attemptsInv wf recs) : attemptsInv wf (recoverRecords recs) := by
  intro i
  unfold recoverRecords
  by_cases hr : (recs i).status = .running
  · have := (h i).2.1 (Or.inr (Or.inl hr))
    simp [hr, this]
  · rw [if_neg hr]
    exact h i

lemma attemptsInv_reachable {wf : WorkflowDef} {oracle : Nat → Nat → Bool}
    {s : ExecState} (h : Reachable wf oracle s) : attemptsInv wf s.records := by
  induction h with
  | init => intro i; simp [initState, initRecord]
  | admitStep _ ih => exact attemptsInv_admitStep ih
  | complete _ ih => exact attemptsInv_complete ih
  | skip _ ih => exact attemptsInv_skip ih
  | cancel _ ih => exact attemptsInv_cancel ih
  | recover _ ih => exact attemptsInv_recover ih

/-! ## C5: checkpoint recovery -/

lemma skipRecords_not_running {wf : WorkflowDef} {recs : Nat → StepRecord}
    (h : noRunning recs) : noRunning (skipRecords wf recs) := by
  intro i hi
  exact h i (skipRecords_running_iff.mp hi)

lemma tickRecords_noRunning (wf : WorkflowDef) (oracle : Nat → Nat → Bool)
    (recs : Nat → StepRecord) : noRunning (tickRecords wf oracle recs) :=
  skipRecords_not_running (completeRecords_not_running wf oracle _)

lemma runTicks_noRunning (wf : WorkflowDef) (oracle : Nat → Nat → Bool) :
    ∀ k, noRunning (runTicks wf oracle k)
  | 0 => fun i => by simp [runTicks, initRecord]
  | k + 1 => tickRecords_noRunning wf oracle (runTicks wf oracle k)

/-- Recovery undoes a crash that happened right after the admission phase:
the admitted steps return to Pending with their attempt counts intact, and
every other record is exactly as checkpointed. -/
lemma recover_admit_cancel {wf : WorkflowDef} {recs : Nat → StepRecord}
    (h : noRunning recs) : recoverRecords (admitRecords wf recs) = recs := by
  funext i
  by_cases hm : i ∈ admittedList wf recs
  · have hp := admitted_pending hm
    have h1 : admitRecords wf recs i = { recs i with status := .running } := by
      unfold admitRecords; rw [if_pos hm]
    show recoverRecords (admitRecords wf recs) i = recs i
    unfold recoverRecords
    rw [h1]
    cases hrec : recs i with
    | mk st a =>
      rw [hrec] at hp
      cases hp
      rfl
  · have h1 : admitRecords wf recs i = recs i := by
      unfold admitRecords; rw [if_neg hm]
    show recoverRecords (admitRecords wf recs) i = recs i
    unfold recoverRecords
    rw [h1]
    exact if_neg (h i)

lemma runFrom_runTicks (wf : WorkflowDef) (oracle : Nat → Nat → Bool) (k : Nat) :
    ∀ f, runFrom wf oracle (runTicks wf oracle k) f = runTicks wf oracle (k + f)
  | 0 => rfl
  | f + 1 => by
    show tickRecords wf oracle (runFrom wf oracle (runTicks wf oracle k) f) = _
    rw [runFrom_runTicks wf oracle k f]
    rfl

/-- A Succeeded record is frozen by the scheduler tick. -/
lemma tickRecords_succeeded_frozen {wf : WorkflowDef} {oracle : Nat → Nat → Bool}
    {recs : Nat → StepRecord} {i : Nat} (h : (recs i).status = .succeeded) :
    tickRecords wf oracle recs i = recs i := by
  unfold tickRecords
  have h1 : admitRecords wf recs i = recs i :=
    admitRecords_eq_of_not_pending (by rw [h]; simp)
  have h2 : completeRecords wf oracle (admitRecords wf recs) i = admitRecords wf recs i :=
    completeRecords_eq_of_not_running (by rw [h1, h]; simp)
  have h3 : skipRecords wf (completeRecords wf oracle (admitRecords wf recs)) i =
      completeRecords wf oracle (admitRecords wf recs) i :=
    skipRecords_eq_of_not_pending (by rw [h2, h1, h]; simp)
  rw [h3, h2, h1]

lemma runFrom_succeeded_frozen {wf : WorkflowDef} {oracle : Nat → Nat → Bool}
    {recs : Nat → StepRecord} {i : Nat} (h : (recs i).status = .succeeded) :
    ∀ f, runFrom wf oracle recs f i = recs i
  | 0 => rfl
  | f + 1 => by
    show tickRecords wf oracle (runFrom wf oracle recs f) i = recs i
    have ih := @runFrom_succeeded_frozen wf oracle recs i h f
    have hs : (runFrom wf oracle recs f i).status = .succeeded := by rw [ih, h]
    rw [tickRecords_succeeded_frozen hs, ih]

/-! ## C6: pool acquire at cap -/

lemma tryAcquireNow_none_of_cap {p : PoolState} (hi : p.idle = 0) (ha : p.active = p.cap) :
    tryAcquireNow p = none := by
  unfold tryAcquireNow PoolState.total
  simp [hi, ha]

lemma poolAcquire_now {p p' : PoolState} (h : tryAcquireNow p = some p')
    (t : Nat) (ev : List Bool) : poolAcquire t p ev = .ok p' := by
  cases t <;> simp [poolAcquire, h]

lemma poolAcquire_zero {p : PoolState} (h : tryAcquireNow p = none) (ev : List Bool) :
    poolAcquire 0 p ev = .acquireTimeout p := by
  simp [poolAcquire, h]

lemma poolAcquire_nil {p : PoolState} (h : tryAcquireNow p = none) (t : Nat) :
    poolAcquire t p [] = .acquireTimeout p := by
  cases t <;> simp [poolAcquire, h]

lemma poolAcquire_cons {p : PoolState} (h : tryAcquireNow p = none) (e : Bool)
    (rest : List Bool) (t : Nat) :
    poolAcquire (t + 1) p (e :: rest) = poolAcquire t (applyRelease p e) rest := by
  simp [poolAcquire, h]

/-- No release within the timeout window: the caller times out with the pool
unchanged. -/
lemma poolAcquire_timesOut : ∀ (t : Nat) (p : PoolState) (ev : List Bool),
    p.idle = 0 → p.active = p.cap → (∀ e ∈ ev.take t, e = false) →
    poolAcquire t p ev = .acquireTimeout p := by
  intro t
  induction t with
  | zero =>
    intro p ev hi ha _
    exact poolAcquire_zero (tryAcquireNow_none_of_cap hi ha) ev
  | succ t ih =>
    intro p ev hi ha hev
    cases ev with
    | nil => exact poolAcquire_nil (tryAcquireNow_none_of_cap hi ha) (t + 1)
    | cons e rest =>
      have he : e = false := hev e (by simp)
      rw [poolAcquire_cons (tryAcquireNow_none_of_cap hi ha) e rest t]
      rw [he]
      show poolAcquire t p rest = .acquireTimeout p
      exact ih p rest hi ha (fun e' he' => hev e' (by simp [List.take_cons]; exact Or.inr he'))

/-- A release arriving before the timeout unblocks the waiting caller, which
then takes over the released slot; the pool stays exactly at the cap. -/
lemma poolAcquire_afterRelease : ∀ (k : Nat) (t : Nat) (p : PoolState) (rest : List Bool),
    p.idle = 0 → p.active = p.cap → 0 < p.cap → k < t →
    poolAcquire t p (List.replicate k false ++ true :: rest) =
      .ok { idle := 0, active := p.cap, cap := p.cap } := by
  intro k
  induction k with
  | zero =>
    intro t p rest hi ha hc hk
    cases t with
    | zero => omega
    | succ t' =>
      rw [List.replicate_zero, List.nil_append]
      rw [poolAcquire_cons (tryAcquireNow_none_of_cap hi ha) true rest t']
      have hrel : applyRelease p true = { p with idle := 1, active := p.cap - 1 } := by
        unfold applyRelease
        rw [if_pos rfl, if_pos (by omega : 0 < p.active)]
        cases p with
        | mk i a c => simp at hi ha ⊢; omega
      rw [hrel]
      have htry : tryAcquireNow { p with idle := 1, active := p.cap - 1 } =
          some { p with idle := 0, active := p.cap } := by
        unfold tryAcquireNow
        rw [if_pos (by simp : (0 : Nat) < 1)]
        simp
        omega
      rw [poolAcquire_now htry t' rest]
  | succ k ih =>
    intro t p rest hi ha hc hk
    cases t with
    | zero => omega
    | succ t' =>
      rw [List.replicate_succ, List.cons_append]
      rw [poolAcquire_cons (tryAcquireNow_none_of_cap hi ha) false _ t']
      have hrel : applyRelease p false = p := by unfold applyRelease; simp
      rw [hrel]
      exact ih t' p rest hi ha hc (by omega)

lemma tryAcquireNow_bound {p p' : PoolState} (h : tryAcquireNow p = some p')
    (hb : p.total ≤ p.cap) : p'.total ≤ p.cap ∧ p'.cap = p.cap := by
  unfold tryAcquireNow at h
  by_cases h1 : 0 < p.idle
  · rw [if_pos h1] at h
    cases h
    unfold PoolState.total at *
    constructor
    · simp; omega
    · rfl
  · rw [if_neg h1] at h
    by_cases h2 : p.total < p.cap
    · rw [if_pos h2] at h
      cases h
      unfold PoolState.total at *
      constructor
      · simp; omega
      · rfl
    · rw [if_neg h2] at h
      cases h

lemma applyRelease_total (p : PoolState) (e : Bool) :
    (applyRelease p e).total = p.total ∧ (applyRelease p e).cap = p.cap := by
  unfold applyRelease PoolState.total
  by_cases he : e = true
  · rw [if_pos he]
    by_cases ha : 0 < p.active
    · rw [if_pos ha]; simp; omega
    · rw [if_neg ha]; simp
  · simp [he]

/-- The pool never over-provisions: starting at or below the cap, the pool
observed by the acquire call never exceeds the cap. -/
lemma poolAcquire_bounded : ∀ (t : Nat) (p : PoolState) (ev : List Bool),
    p.total ≤ p.cap →
    ((poolAcquire t p ev).state).total ≤ p.cap ∧
      ((poolAcquire t p ev).state).cap = p.cap := by
  intro t
  induction t with
  | zero =>
    intro p ev hb
    cases htry : tryAcquireNow p with
    | some p' =>
      rw [poolAcquire_now htry]
      exact tryAcquireNow_bound htry hb
    | none =>
      rw [poolAcquire_zero htry]
      exact ⟨hb, rfl⟩
  | succ t ih =>
    intro p ev hb
    cases htry : tryAcquireNow p with
    | some p' =>
      rw [poolAcquire_now htry]
      exact tryAcquireNow_bound htry hb
    | none =>
      cases ev with
      | nil =>
        rw [poolAcquire_nil htry]
        exact ⟨hb, rfl⟩
      | cons e rest =>
        rw [poolAcquire_cons htry e rest t]
        have hrel := applyRelease_total p e
        have := ih (applyRelease p e) rest (by omega)
        constructor <;> omega

/-! ## C9: the App job-list timer -/

lemma jobsAfter_length : ∀ n, (jobsAfter n).length = 5 + n
  | 0 => rfl
  | n + 1 => by
    show (jobsAfter n ++ [newJob (jobsAfter n)]).length = 5 + (n + 1)
    rw [List.length_append, jobsAfter_length n]
    rfl

lemma jobsAfter_ids : ∀ n, (jobsAfter n).map Job.id = List.range' 1 (5 + n)
  | 0 => rfl
  | n + 1 => by
    show (jobsAfter n ++ [newJob (jobsAfter n)]).map Job.id = List.range' 1 (5 + (n + 1))
    rw [List.map_append, jobsAfter_ids n]
    show List.range' 1 (5 + n) ++ [(jobsAfter n).length + 1] = _
    rw [jobsAfter_length n]
    rw [show 5 + (n + 1) = (5 + n) + 1 from rfl, List.range'_concat 1 (5 + n)]
    congr 2
    omega

/-! ## C10: the JobDetailPage lookup -/

lemma jobLookup_eq_none {p : Option String}
    (h1 : parseIntJS (routeIdString p) ≠ some 1)
    (h2 : parseIntJS (routeIdString p) ≠ some 2)
    (h3 : parseIntJS (routeIdString p) ≠ some 3) :
    jobLookup p = none := by
  unfold jobLookup
  cases hv : parseIntJS (routeIdString p) with
  | none => rfl
  | some v =>
    have e1 : v ≠ 1 := fun he => h1 (by rw [hv, he])
    have e2 : v ≠ 2 := fun he => h2 (by rw [hv, he])
    have e3 : v ≠ 3 := fun he => h3 (by rw [hv, he])
    apply List.find?_eq_none.mpr
    intro j hj
    unfold mockJobs at hj
    simp only [List.mem_cons, List.not_mem_nil, or_false] at hj
    rcases hj with rfl | rfl | rfl
    · simp [beq_iff_eq]; omega
    · simp [beq_iff_eq]; omega
    · simp [beq_iff_eq]; omega

lemma admittedList_sorted (wf : WorkflowDef) (recs : Nat → StepRecord) :
    List.Sorted (admOrder wf) (admittedList wf recs) :=
  (List.sorted_insertionSort (admOrder wf) _).sublist (List.take_sublist _ _)

/-! ## Claim theorems -/

/-- C1: For every workflow execution and every step that declares a
dependency, the step never enters Running status at any reachable state of
the scheduler before every one of its dependency steps has status Succeeded,
or Skipped with that dependency explicitly marked optional. -/
theorem claim_C1_dependency_order (wf : WorkflowDef) (oracle : Nat → Nat → Bool)
    (s : ExecState) (h : Reachable wf oracle s) :
    ∀ i, (s.records i).status = .running →
      ∀ d ∈ (wf.step i).deps, depOk s.records d = true :=
  runningDepsOk_reachable h

theorem claim_C1_dependency_order_witness :
    (sW.records 1).status = .running ∧ depOk sW.records (0, false) = true := by
  have h := claim_C1_dependency_order wfW oracleW sW
    (Reachable.admitStep (Reachable.skip (Reachable.complete (Reachable.admitStep Reachable.init))))
  exact ⟨by decide, h 1 (by decide) (0, false) (by decide)⟩

/-- C2: A step with max-retries = R is marked permanently Failed only after
exactly R + 1 invocation attempts, each attempt incrementing the recorded
attempt count by one; a failing attempt whose prior attempt count is below R
re-queues the step as Pending instead of failing it. -/
theorem claim_C2_retry_accounting (wf : WorkflowDef) (oracle : Nat → Nat → Bool)
    (s : ExecState) (h : Reachable wf oracle s) :
    (∀ i, (s.records i).status = .failed →
      (s.records i).attempts = (wf.step i).maxRetries + 1) ∧
    (∀ i r, (resolveStep wf oracle i r).attempts = r.attempts + 1) ∧
    (∀ i r, oracle i r.attempts = false → r.attempts < (wf.step i).maxRetries →
      resolveStep wf oracle i r = { status := .pending, attempts := r.attempts + 1 }) := by
  refine ⟨fun i hi => ((attemptsInv_reachable h) i).1 hi, fun i r => ?_, fun i r ho hlt => ?_⟩
  · unfold resolveStep
    split
    · rfl
    · split <;> rfl
  · unfold resolveStep
    rw [if_neg (by simp [ho]), if_pos hlt]

theorem claim_C2_retry_accounting_witness :
    (sF.records 0).status = .failed ∧
    (sF.records 0).attempts = (wfF.step 0).maxRetries + 1 ∧
    resolveStep wfF oracleF 0 { status := .running, attempts := 0 } =
      { status := .pending, attempts := 1 } := by
  have h := claim_C2_retry_accounting wfF oracleF sF
    (Reachable.skip (Reachable.complete (Reachable.admitStep
      (Reachable.skip (Reachable.complete (Reachable.admitStep Reachable.init))))))
  exact ⟨by decide, h.1 0 (by decide), h.2.2 0 _ (by decide) (by decide)⟩

/-- C3: At every reachable state the number of Running steps is at most
max-concurrent-steps; one scheduling pass admits at most
max-concurrent-steps − currently-running-count steps, all taken from the
ready set in declared-priority order with definition order as tie-break. -/
theorem claim_C3_concurrency_cap (wf : WorkflowDef) (oracle : Nat → Nat → Bool)
    (s : ExecState) (h : Reachable wf oracle s) :
    runningCount wf s.records ≤ wf.maxConcurrentSteps ∧
    (admittedList wf s.records).length ≤
      wf.maxConcurrentSteps - runningCount wf s.records ∧
    List.Sorted (admOrder wf) (admittedList wf s.records) ∧
    (∀ i ∈ admittedList wf s.records, isReady wf s.records i = true) :=
  ⟨runningCount_reachable h, admittedList_length_le wf s.records,
    admittedList_sorted wf s.records, fun _ hi => admitted_ready hi⟩

theorem claim_C3_concurrency_cap_witness :
    runningCount wfW sW.records ≤ wfW.maxConcurrentSteps ∧
    (admittedList wfW sW.records).length ≤
      wfW.maxConcurrentSteps - runningCount wfW sW.records ∧
    List.Sorted (admOrder wfW) (admittedList wfW sW.records) ∧
    (∀ i ∈ admittedList wfW sW.records, isReady wfW sW.records i = true) :=
  claim_C3_concurrency_cap wfW oracleW sW
    (Reachable.admitStep (Reachable.skip (Reachable.complete (Reachable.admitStep Reachable.init))))

/-- C4: Session accounting is balanced at every reachable state: the
cumulative number of successful acquisitions equals the cumulative number of
releases plus the sessions currently held by Running steps, so whenever no
step is in flight every acquired session has been released exactly once —
including after action errors and after cancellation. -/
theorem claim_C4_session_balance (wf : WorkflowDef) (oracle : Nat → Nat → Bool)
    (s : ExecState) (h : Reachable wf oracle s) :
    s.acquired = s.released + heldCount wf s.records ∧
    (heldCount wf s.records = 0 → s.acquired = s.released) := by
  have hb := sessionBalance_reachable h
  exact ⟨hb, fun h0 => by omega⟩

theorem claim_C4_session_balance_witness :
    sQ.acquired = sQ.released + heldCount wfW sQ.records ∧
    sQ.acquired = sQ.released := by
  have h := claim_C4_session_balance wfW oracleW sQ
    (Reachable.skip (Reachable.complete (Reachable.admitStep Reachable.init)))
  exact ⟨h.1, h.2 (by decide)⟩

/-- C5: Re-running the Orchestrator from the latest persisted checkpoint
after a crash (taken mid-tick, right after admissions) yields the same
record table as the uninterrupted run after any number of further ticks:
recovery turns every step recorded Running back into Pending with its prior
attempt count preserved, and a Succeeded record is never re-executed (its
record, attempt count included, stays frozen). -/
theorem claim_C5_crash_recovery (wf : WorkflowDef) (oracle : Nat → Nat → Bool) (k f : Nat) :
    recoverRecords (admitRecords wf (runTicks wf oracle k)) = runTicks wf oracle k ∧
    runFrom wf oracle (recoverRecords (admitRecords wf (runTicks wf oracle k))) f =
      runTicks wf oracle (k + f) ∧
    (∀ i, (runTicks wf oracle k i).status = .succeeded →
      runFrom wf oracle (recoverRecords (admitRecords wf (runTicks wf oracle k))) f i =
        runTicks wf oracle k i) ∧
    (∀ i, (admitRecords wf (runTicks wf oracle k) i).status = .running →
      (recoverRecords (admitRecords wf (runTicks wf oracle k)) i).status = .pending ∧
      (recoverRecords (admitRecords wf (runTicks wf oracle k)) i).attempts =
        (admitRecords wf (runTicks wf oracle k) i).attempts) := by
  have hnr := runTicks_noRunning wf oracle k
  have hrec := @recover_admit_cancel wf (runTicks wf oracle k) hnr
  refine ⟨hrec, ?_, ?_, ?_⟩
  · rw [hrec]
    exact runFrom_runTicks wf oracle k f
  · intro i hi
    rw [hrec]
    exact runFrom_succeeded_frozen hi f
  · intro i hi
    unfold recoverRecords
    rw [if_pos hi]
    exact ⟨rfl, rfl⟩

theorem claim_C5_crash_recovery_witness :
    (runTicks wfW oracleW 1 0).status = .succeeded ∧
    runFrom wfW oracleW (recoverRecords (admitRecords wfW (runTicks wfW oracleW 1))) 1 0 =
      runTicks wfW oracleW 1 0 ∧
    (admitRecords wfW (runTicks wfW oracleW 1) 1).status = .running ∧
    (recoverRecords (admitRecords wfW (runTicks wfW oracleW 1)) 1).status = .pending := by
  have h := claim_C5_crash_recovery wfW oracleW 1 1
  exact ⟨by decide, h.2.2.1 0 (by decide), by decide, (h.2.2.2 1 (by decide)).1⟩

/-- C6: When `acquire` is called while the pool key is at its size cap with
all sessions Active, the caller blocks until a release or until the timeout:
with no release within the timeout it receives `AcquireTimeout`, with a
release before the timeout it obtains the freed slot, and the pool never
over-provisions beyond the cap. -/
theorem claim_C6_acquire_timeout :
    (∀ (t : Nat) (p : PoolState) (ev : List Bool), p.idle = 0 → p.active = p.cap →
      (∀ e ∈ ev.take t, e = false) → poolAcquire t p ev = .acquireTimeout p) ∧
    (∀ (k t : Nat) (p : PoolState) (rest : List Bool), p.idle = 0 → p.active = p.cap →
      0 < p.cap → k < t →
      poolAcquire t p (List.replicate k false ++ true :: rest) =
        .ok { idle := 0, active := p.cap, cap := p.cap }) ∧
    (∀ (t : Nat) (p : PoolState) (ev : List Bool), p.total ≤ p.cap →
      ((poolAcquire t p ev).state).total ≤ p.cap ∧
        ((poolAcquire t p ev).state).cap = p.cap) :=
  ⟨poolAcquire_timesOut, poolAcquire_afterRelease, poolAcquire_bounded⟩

theorem claim_C6_acquire_timeout_witness :
    poolAcquire 2 { idle := 0, active := 2, cap := 2 } [false, false] =
      .acquireTimeout { idle := 0, active := 2, cap := 2 } ∧
    poolAcquire 2 { idle := 0, active := 2, cap := 2 } [false, true] =
      .ok { idle := 0, active := 2, cap := 2 } ∧
    ((poolAcquire 2 { idle := 0, active := 2, cap := 2 } [false, false]).state).total ≤ 2 := by
  have h := claim_C6_acquire_timeout
  refine ⟨h.1 2 _ [false, false] rfl rfl (by decide), ?_,
    (h.2.2 2 _ [false, false] (by decide)).1⟩
  exact h.2.1 1 2 { idle := 0, active := 2, cap := 2 } [] rfl rfl (by decide) (by decide)

/-- C7: A session's status is always one of exactly the seven values
Creating, Active, Idle, Unhealthy, Expired, Closed, Error; Closed is
terminal (no lifecycle transition leaves it), and replacement creates a
fresh session for the same pool key carrying a copy of the old session's
context while the old session is closed. -/
theorem claim_C7_session_lifecycle :
    (∀ s : SessionStatus, s ∈ SessionStatus.all) ∧
    SessionStatus.all.length = 7 ∧
    SessionStatus.all.Nodup ∧
    (∀ t : SessionStatus, sessionStepAllowed .closed t = false) ∧
    (∀ (old : Session) (newId : Nat),
      (replaceSession old newId).1.context = old.context ∧
      (replaceSession old newId).1.poolKey = old.poolKey ∧
      (replaceSession old newId).1.status = .creating ∧
      (replaceSession old newId).2.status = .closed) := by
  refine ⟨fun s => by cases s <;> simp [SessionStatus.all], rfl, by decide,
    fun t => by cases t <;> rfl, fun old newId => ⟨rfl, rfl, rfl, rfl⟩⟩

/-- C8: Failure propagation on the spec §8 scenario: the always-failing step
with max-retries = 2 is Failed after 3 attempts, its direct and transitive
dependents are Skipped without ever running, a dependent explicitly marked
to run on upstream failure is not skipped, the independent sibling still
reaches Succeeded, the Skipped upstream step does not make its dependent
ready, and the execution terminates as Failed. -/
theorem claim_C8_failure_propagation :
    runTicks wf8 oracle8 4 0 = { status := .succeeded, attempts := 1 } ∧
    (wf8.step 1).maxRetries = 2 ∧
    runTicks wf8 oracle8 4 1 = { status := .failed, attempts := 3 } ∧
    runTicks wf8 oracle8 4 2 = { status := .skipped, attempts := 0 } ∧
    runTicks wf8 oracle8 4 3 = { status := .skipped, attempts := 0 } ∧
    (runTicks wf8 oracle8 4 4).status = .pending ∧
    (runTicks wf8 oracle8 3 2).status = .skipped ∧
    isReady wf8 (runTicks wf8 oracle8 3) 3 = false ∧
    execStatus wf8 ⟨runTicks wf8 oracle8 4, 0, 0, false⟩ = .failed := by
  decide

/-- C9: In the web App component, every job appended by the 5-second
interval timer has status `Pending` and id equal to the previous list length
plus one; the timer only appends, so after `n` ticks from the initial five
jobs the list has length 5 + n and its ids are the consecutive integers
1..(5 + n). -/
theorem claim_C9_job_list_growth (n : Nat) :
    jobsAfter (n + 1) = jobsAfter n ++ [newJob (jobsAfter n)] ∧
    (newJob (jobsAfter n)).status = "Pending" ∧
    (newJob (jobsAfter n)).id = (jobsAfter n).length + 1 ∧
    (jobsAfter n).length = 5 + n ∧
    (jobsAfter n).map Job.id = List.range' 1 (5 + n) :=
  ⟨rfl, rfl, rfl, jobsAfter_length n, jobsAfter_ids n⟩

/-- C10: For every route id parameter that does not parse in base 10 to the
id of one of the three hard-coded mock jobs — including non-numeric and
empty strings, and a missing parameter — the JobDetailPage renders the text
`Job not found` and no job details. -/
theorem claim_C10_job_not_found (p : Option String)
    (h1 : parseIntJS (routeIdString p) ≠ some 1)
    (h2 : parseIntJS (routeIdString p) ≠ some 2)
    (h3 : parseIntJS (routeIdString p) ≠ some 3) :
    renderJobDetail p = .notFound ∧ viewText (renderJobDetail p) = "Job not found" := by
  have h := jobLookup_eq_none h1 h2 h3
  unfold renderJobDetail
  rw [h]
  exact ⟨rfl, rfl⟩

theorem claim_C10_job_not_found_witness :
    renderJobDetail (some "42") = .notFound ∧
    viewText (renderJobDetail (some "42")) = "Job not found" :=
  claim_C10_job_not_found (some "42") (by decide) (by decide) (by decide)

end UpworkAutomation
